import Mathlib

/-!
Shallow embedding of the benchmark sweep engine of
`src/frame/support/src/weighing.rs` (the `impl_benchmark!` expansion,
`run_benchmark`, lines 126-179, and the `benchmark_backend!` actioning arm's
`instance`, lines 350-370).

Conventions of the embedding:
* `u32` values become `Nat`; the code only subtracts `high - low` under the
  declared invariant `low <= high`, where `Nat` and `u32` subtraction agree,
  and `u32` division is `Nat` division.
* A `BenchmarkParameter` is an opaque identifier, embedded as `Nat`.
* A component `(BenchmarkParameter, u32, u32)` is `Nat × Nat × Nat`
  (id, low, high), and an assignment `Vec<(BenchmarkParameter, u32)>` is
  `List (Nat × Nat)`.
* The external effects of the sweep loop (`instance`, `dispatch`,
  `commit_db`, `wipe_db`, `current_time`) are embedded as oracles indexed by
  a per-effect call counter, together with a ghost trace of backing-store /
  instancing / dispatch events, so that the order of externally visible
  operations can be stated and proved.
* Rust's `Result<T, &'static str>` becomes `Except String T`; `?` becomes an
  early `Except.error` return that discards the locally accumulated results,
  exactly as in the source.
-/

namespace Weighing

/-- `step_size = ((high - low) / steps).max(1)` (weighing.rs line 147). -/
def stepSize (low high steps : Nat) : Nat :=
  ((high - low) / steps).max 1

/-- `num_of_steps = (high - low) / step_size` (weighing.rs line 148). -/
def numSteps (low high steps : Nat) : Nat :=
  (high - low) / stepSize low high steps

/-- The reference value used for non-swept components:
`(h - l) / 2 + l` (weighing.rs line 156). -/
def midValue (low high : Nat) : Nat :=
  (high - low) / 2 + low

/-- The assignment built for one step of the sweep (weighing.rs lines
154-157): every component keeps its id; the component whose id equals the
swept component's id takes the swept `value`, all others take their
`midValue`. -/
def buildAssignment (components : List (Nat × Nat × Nat)) (target : Nat)
    (value : Nat) : List (Nat × Nat) :=
  components.map (fun c => (c.1, if c.1 = target then value else midValue c.2.1 c.2.2))

/-- The sequence of assignments built while sweeping one component `t`:
`s` ranges over `0 .. num_of_steps` and the swept value is
`low + step_size * s` (weighing.rs lines 149-157). -/
def componentAssignments (components : List (Nat × Nat × Nat)) (steps : Nat)
    (t : Nat × Nat × Nat) : List (List (Nat × Nat)) :=
  (List.range (numSteps t.2.1 t.2.2 steps)).map
    (fun s => buildAssignment components t.1 (t.2.1 + stepSize t.2.1 t.2.2 steps * s))

/-- The full planned sequence of timed runs of a sweep: components in
declaration order, within a component the steps ascending, within a step the
assignment repeated `repeatN` times (weighing.rs lines 145-160). -/
def sweepAssignments (components : List (Nat × Nat × Nat)) (steps repeatN : Nat) :
    List (List (Nat × Nat)) :=
  components.flatMap
    (fun t => (componentAssignments components steps t).flatMap
      (fun c => List.replicate repeatN c))

/-- Ghost events recording the externally visible operations of the sweep:
`commit_db`, `wipe_db`, a call of `instance` with the assignment it is given,
and a dispatch of the instanced call. -/
inductive Event where
  | commit : Event
  | wipe : Event
  | instCall : List (Nat × Nat) → Event
  | dispCall : Event
deriving DecidableEq

/-- The environment of the sweep: `instanceFn k c` is the outcome of the
`k`-th `instance` call (counting from 0) on assignment `c`, producing an
opaque invocation token; `dispatchFn k i` is the outcome of the `k`-th
dispatch of invocation `i`; `timeFn k` is the value returned by the `k`-th
`current_time` call. -/
structure BenchEnv where
  instanceFn : Nat → List (Nat × Nat) → Except String Nat
  dispatchFn : Nat → Nat → Except String Unit
  timeFn : Nat → Nat

/-- The running state of the sweep: the ghost event trace, the per-effect
call counters, and the accumulated `results` vector. -/
structure St where
  trace : List Event
  instCount : Nat
  dispCount : Nat
  timeCount : Nat
  results : List (List (Nat × Nat) × Nat)
deriving DecidableEq

/-- The four events of one successfully timed run. -/
def runEvents (c : List (Nat × Nat)) : List Event :=
  [Event.instCall c, Event.commit, Event.dispCall, Event.wipe]

/-- The body of the innermost `for _ in 0..repeat` loop (weighing.rs lines
161-173): `instance(&c)?`, `commit_db()`, `start = current_time()`,
`call.dispatch(caller)?`, `finish = current_time()`,
`results.push((c.clone(), finish - start))`, `wipe_db()`. A `some` error
means the surrounding `run_benchmark` returns early with that error. -/
def oneRun (env : BenchEnv) (c : List (Nat × Nat)) (st : St) : St × Option String :=
  match env.instanceFn st.instCount c with
  | Except.error e =>
    ({ st with trace := st.trace ++ [Event.instCall c],
               instCount := st.instCount + 1 }, some e)
  | Except.ok inv =>
    match env.dispatchFn st.dispCount inv with
    | Except.error e =>
      ({ st with trace := st.trace ++ [Event.instCall c, Event.commit, Event.dispCall],
                 instCount := st.instCount + 1,
                 dispCount := st.dispCount + 1,
                 timeCount := st.timeCount + 1 }, some e)
    | Except.ok _ =>
      ({ st with trace := st.trace ++ runEvents c,
                 instCount := st.instCount + 1,
                 dispCount := st.dispCount + 1,
                 timeCount := st.timeCount + 2,
                 results := st.results ++
                   [(c, env.timeFn (st.timeCount + 1) - env.timeFn st.timeCount)] },
       none)

/-- The `for _ in 0..repeat` loop (weighing.rs line 160). -/
def runRepeat (env : BenchEnv) (c : List (Nat × Nat)) : Nat → St → St × Option String
  | 0, st => (st, none)
  | r + 1, st =>
    match oneRun env c st with
    | (st', some e) => (st', some e)
    | (st', none) => runRepeat env c r st'

/-- The `for s in 0..num_of_steps` loop (weighing.rs line 149), iterating
over the assignments built for each step of the swept component. -/
def runAssignments (env : BenchEnv) (repeatN : Nat) :
    List (List (Nat × Nat)) → St → St × Option String
  | [], st => (st, none)
  | c :: rest, st =>
    match runRepeat env c repeatN st with
    | (st', some e) => (st', some e)
    | (st', none) => runAssignments env repeatN rest st'

/-- The outer `for (name, low, high) in components.iter()` loop (weighing.rs
line 145): `all` is the full component list (used for the midpoints of the
non-swept components), the last argument the components still to sweep. -/
def runComponents (env : BenchEnv) (steps repeatN : Nat)
    (all : List (Nat × Nat × Nat)) :
    List (Nat × Nat × Nat) → St → St × Option String
  | [], st => (st, none)
  | t :: rest, st =>
    match runAssignments env repeatN (componentAssignments all steps t) st with
    | (st', some e) => (st', some e)
    | (st', none) => runComponents env steps repeatN all rest st'

/-- The benchmark registry: the `match extrinsic { stringify!($name) => ... }`
arms of `run_benchmark` (weighing.rs lines 131-134), mapping a name to the
selected case's declared components. The first matching name wins. -/
def lookupCase (registry : List (String × List (Nat × Nat × Nat))) (x : String) :
    Option (List (Nat × Nat × Nat)) :=
  match registry with
  | [] => none
  | (n, comps) :: rest => if n = x then some comps else lookupCase rest x

/-- The state at the start of the sweep proper: the warm-up
`commit_db(); wipe_db();` (weighing.rs lines 136-138) has happened, all call
counters are 0 and no results are accumulated. -/
def initSt : St :=
  { trace := [Event.commit, Event.wipe], instCount := 0, dispCount := 0,
    timeCount := 0, results := [] }

/-- `run_benchmark(extrinsic, steps, repeat)` (weighing.rs lines 127-178):
resolve the name (else `Err("Could not find extrinsic.")` with no
backing-store operation), warm up the store, run the nested sweep loops, and
return the accumulated results, or the first error with no results at all.
The first projection is the ghost trace of externally visible events. -/
def run_benchmark (registry : List (String × List (Nat × Nat × Nat)))
    (env : BenchEnv) (extrinsic : String) (steps repeatN : Nat) :
    List Event × Except String (List (List (Nat × Nat) × Nat)) :=
  match lookupCase registry extrinsic with
  | none => ([], Except.error "Could not find extrinsic.")
  | some comps =>
    match runComponents env steps repeatN comps comps initSt with
    | (st, some e) => (st.trace, Except.error e)
    | (st, none) => (st.trace, Except.ok st.results)

/-- One timed run per element of a flat list of assignments, stopping at the
first error: the normal form of the three nested loops, which visit one
timed run per element of `sweepAssignments`. -/
def runList (env : BenchEnv) : List (List (Nat × Nat)) → St → St × Option String
  | [], st => (st, none)
  | c :: rest, st =>
    match oneRun env c st with
    | (st', some e) => (st', some e)
    | (st', none) => runList env rest st'

/-- An environment in which every `instance` call and every dispatch
succeeds. -/
def AllOk (env : BenchEnv) : Prop :=
  (∀ k c, ∃ i, env.instanceFn k c = Except.ok i) ∧
  (∀ k i, env.dispatchFn k i = Except.ok ())

/-- An environment whose first `K` `instance` calls succeed and whose
`K`-th one fails with error `e`; dispatch always succeeds. -/
def instFailEnv (K : Nat) (e : String) : BenchEnv :=
  { instanceFn := fun k _ => if k < K then Except.ok 0 else Except.error e,
    dispatchFn := fun _ _ => Except.ok (),
    timeFn := fun _ => 0 }

/-- An environment whose `instance` calls all succeed, whose first `K`
dispatches succeed and whose `K`-th dispatch fails with error `e`. -/
def dispFailEnv (K : Nat) (e : String) : BenchEnv :=
  { instanceFn := fun _ _ => Except.ok 0,
    dispatchFn := fun k _ => if k < K then Except.ok () else Except.error e,
    timeFn := fun _ => 0 }

/-- A fully successful environment whose clock always reads 0. -/
def okEnv : BenchEnv :=
  { instanceFn := fun _ _ => Except.ok 0,
    dispatchFn := fun _ _ => Except.ok (),
    timeFn := fun _ => 0 }

/-- A fully successful environment whose clock ticks once per reading. -/
def tickEnv : BenchEnv :=
  { instanceFn := fun _ _ => Except.ok 0,
    dispatchFn := fun _ _ => Except.ok (),
    timeFn := fun k => k }

/-- Every dispatch event in the trace is immediately preceded by a
`commit_db`. -/
def commitPrecedesDispatch (tr : List Event) : Prop :=
  ∀ i, tr[i + 1]? = some Event.dispCall → tr[i]? = some Event.commit

/-!
Embedding of the `benchmark_backend!` actioning arm (weighing.rs lines
350-370).  The generated `instance` first looks up the value of every
declared parameter in the given assignment
(`components.iter().find(|&c| c.0 == BenchmarkParameter::$param).unwrap().1`,
a panic when absent, embedded as `Option.none`), then evaluates the
pre-instancing `let` bindings, then each parameter's instancer in
declaration order (each may bail with a string error via `?`), and finally
the build step `Ok((crate::Call::<T>::$name(..), $origin))` whose argument
expressions may themselves bail.  Pre blocks, instancers and the build step
are abstracted as functions of the looked-up parameter values.
-/

/-- One benchmark case as seen by `instance`: the declared parameter ids in
declaration order, the pre-instancing bindings, the per-parameter
instancers in declaration order, and the build step producing the
`(call, origin)` pair (both opaque, embedded as `Nat`). -/
structure InstanceCase where
  params : List Nat
  preBlocks : List (List Nat → Except String Unit)
  instancers : List (List Nat → Except String Unit)
  build : List Nat → Except String (Nat × Nat)

/-- `components.iter().find(|&c| c.0 == p).unwrap().1`, with the `unwrap`
panic embedded as `none` (weighing.rs line 361). -/
def lookupValue (components : List (Nat × Nat)) (p : Nat) : Option Nat :=
  (components.find? (fun c => c.1 = p)).map (fun c => c.2)

/-- The looked-up values of all declared parameters, in declaration order;
`none` as soon as one `unwrap` would panic. -/
def lookupValues (components : List (Nat × Nat)) : List Nat → Option (List Nat)
  | [] => some []
  | p :: ps =>
    match lookupValue components p, lookupValues components ps with
    | some v, some vs => some (v :: vs)
    | _, _ => none

/-- Sequential evaluation of a list of fallible statements, stopping at the
first error (`$( $stmt ; )*` with `?`-propagation). -/
def seqRun : List (Except String Unit) → Except String Unit
  | [] => Except.ok ()
  | e :: es =>
    match e with
    | Except.error s => Except.error s
    | Except.ok _ => seqRun es

/-- The part of `instance` that runs after all parameter lookups succeeded:
pre blocks, then the instancers, then the build step. -/
def instanceStages (bc : InstanceCase) (vs : List Nat) : Except String (Nat × Nat) :=
  match seqRun (bc.preBlocks.map (fun f => f vs)) with
  | Except.error e => Except.error e
  | Except.ok _ =>
    match seqRun (bc.instancers.map (fun f => f vs)) with
    | Except.error e => Except.error e
    | Except.ok _ => bc.build vs

/-- `instance(&self, components)` (weighing.rs lines 350-370): `none` models
the `unwrap` panic on a missing parameter, `some r` the returned
`Result`. -/
def instanceRun (bc : InstanceCase) (components : List (Nat × Nat)) :
    Option (Except String (Nat × Nat)) :=
  match lookupValues components bc.params with
  | none => none
  | some vs => some (instanceStages bc vs)

/-- A concrete benchmark case used to witness the `instance` contract. -/
def sampleCase : InstanceCase :=
  { params := [0, 1],
    preBlocks := [fun _ => Except.ok ()],
    instancers := [fun _ => Except.ok (), fun _ => Except.ok ()],
    build := fun vs => Except.ok (vs.headD 0, 0) }

/-! ### Normal form of the nested loops -/

theorem runList_append (env : BenchEnv) (xs ys : List (List (Nat × Nat))) (st : St) :
    runList env (xs ++ ys) st =
      match runList env xs st with
      | (st', some e) => (st', some e)
      | (st', none) => runList env ys st' := by
  induction xs generalizing st with
  | nil => simp [runList]
  | cons c rest ih =>
    simp only [List.cons_append, runList]
    rcases h : oneRun env c st with ⟨st', eo⟩
    cases eo with
    | none => simp [ih st']
    | some e => simp

theorem runRepeat_eq_runList (env : BenchEnv) (c : List (Nat × Nat))
    (r : Nat) (st : St) :
    runRepeat env c r st = runList env (List.replicate r c) st := by
  induction r generalizing st with
  | zero => rfl
  | succ r ih =>
    simp only [runRepeat, List.replicate_succ, runList]
    rcases h : oneRun env c st with ⟨st', eo⟩
    cases eo with
    | none => simp [ih st']
    | some e => simp

theorem runAssignments_eq_runList (env : BenchEnv) (repeatN : Nat)
    (cs : List (List (Nat × Nat))) (st : St) :
    runAssignments env repeatN cs st =
      runList env (cs.flatMap (fun c => List.replicate repeatN c)) st := by
  induction cs generalizing st with
  | nil => rfl
  | cons c rest ih =>
    simp only [runAssignments, List.flatMap_cons, runList_append,
      runRepeat_eq_runList]
    rcases h : runList env (List.replicate repeatN c) st with ⟨st', eo⟩
    cases eo with
    | none => simp [ih st']
    | some e => simp

theorem runComponents_eq_runList (env : BenchEnv) (steps repeatN : Nat)
    (all : List (Nat × Nat × Nat)) (ts : List (Nat × Nat × Nat)) (st : St) :
    runComponents env steps repeatN all ts st =
      runList env
        (ts.flatMap (fun t => (componentAssignments all steps t).flatMap
          (fun c => List.replicate repeatN c))) st := by
  induction ts generalizing st with
  | nil => rfl
  | cons t rest ih =>
    simp only [runComponents, List.flatMap_cons, runList_append,
      runAssignments_eq_runList]
    rcases h : runList env
      ((componentAssignments all steps t).flatMap
        (fun c => List.replicate repeatN c)) st with ⟨st', eo⟩
    cases eo with
    | none => simp [ih st']
    | some e => simp

theorem run_benchmark_eq_runList (registry : List (String × List (Nat × Nat × Nat)))
    (env : BenchEnv) (x : String) (steps repeatN : Nat)
    (comps : List (Nat × Nat × Nat)) (hl : lookupCase registry x = some comps) :
    run_benchmark registry env x steps repeatN =
      match runList env (sweepAssignments comps steps repeatN) initSt with
      | (st, some e) => (st.trace, Except.error e)
      | (st, none) => (st.trace, Except.ok st.results) := by
  simp [run_benchmark, hl, runComponents_eq_runList, sweepAssignments]

/-! ### Characterizations of `runList` -/

theorem oneRun_instErr (env : BenchEnv) (c : List (Nat × Nat)) (st : St)
    (e : String) (h : env.instanceFn st.instCount c = Except.error e) :
    oneRun env c st =
      ({ st with trace := st.trace ++ [Event.instCall c],
                 instCount := st.instCount + 1 }, some e) := by
  simp [oneRun, h]

theorem oneRun_dispErr (env : BenchEnv) (c : List (Nat × Nat)) (st : St)
    (i : Nat) (e : String) (hi : env.instanceFn st.instCount c = Except.ok i)
    (hd : env.dispatchFn st.dispCount i = Except.error e) :
    oneRun env c st =
      ({ st with trace := st.trace ++ [Event.instCall c, Event.commit, Event.dispCall],
                 instCount := st.instCount + 1,
                 dispCount := st.dispCount + 1,
                 timeCount := st.timeCount + 1 }, some e) := by
  simp [oneRun, hi, hd]

theorem oneRun_ok (env : BenchEnv) (c : List (Nat × Nat)) (st : St)
    (i : Nat) (hi : env.instanceFn st.instCount c = Except.ok i)
    (hd : env.dispatchFn st.dispCount i = Except.ok ()) :
    oneRun env c st =
      ({ st with trace := st.trace ++ runEvents c,
                 instCount := st.instCount + 1,
                 dispCount := st.dispCount + 1,
                 timeCount := st.timeCount + 2,
                 results := st.results ++
                   [(c, env.timeFn (st.timeCount + 1) - env.timeFn st.timeCount)] },
       none) := by
  simp [oneRun, hi, hd]

theorem runList_allOk (env : BenchEnv) (h : AllOk env)
    (cs : List (List (Nat × Nat))) (st : St) :
    (runList env cs st).2 = none ∧
    (runList env cs st).1.trace = st.trace ++ cs.flatMap runEvents ∧
    (runList env cs st).1.results.map Prod.fst = st.results.map Prod.fst ++ cs := by
  induction cs generalizing st with
  | nil => simp [runList]
  | cons c rest ih =>
    obtain ⟨i, hi⟩ := h.1 st.instCount c
    have hone := oneRun_ok env c st i hi (h.2 st.dispCount i)
    simp only [runList, hone]
    refine ⟨(ih _).1, ?_, ?_⟩
    · rw [(ih _).2.1]
      simp [runEvents]
    · rw [(ih _).2.2]
      simp

theorem runList_ok_results (env : BenchEnv) (cs : List (List (Nat × Nat)))
    (st : St) (hok : (runList env cs st).2 = none) :
    (runList env cs st).1.results.map Prod.fst = st.results.map Prod.fst ++ cs := by
  induction cs generalizing st with
  | nil => simp [runList]
  | cons c rest ih =>
    rcases hi : env.instanceFn st.instCount c with e | i
    · rw [runList, oneRun_instErr env c st e hi] at hok
      simp at hok
    · rcases hd : env.dispatchFn st.dispCount i with e | u
      · rw [runList, oneRun_dispErr env c st i e hi hd] at hok
        simp at hok
      · have hd' : env.dispatchFn st.dispCount i = Except.ok () := by
          rw [hd]
        have hone := oneRun_ok env c st i hi hd'
        rw [runList, hone] at hok ⊢
        rw [ih _ hok]
        simp

theorem runList_instFail (K : Nat) (e : String) (cs : List (List (Nat × Nat)))
    (st : St) (h1 : st.instCount ≤ K) (h2 : K < st.instCount + cs.length) :
    (runList (instFailEnv K e) cs st).2 = some e := by
  induction cs generalizing st with
  | nil => simp at h2; omega
  | cons c rest ih =>
    rcases Nat.lt_or_ge st.instCount K with hlt | hge
    · have hi : (instFailEnv K e).instanceFn st.instCount c = Except.ok 0 := by
        simp [instFailEnv, hlt]
      have hd : (instFailEnv K e).dispatchFn st.dispCount 0 = Except.ok () := rfl
      rw [runList, oneRun_ok _ c st 0 hi hd]
      exact ih _ (by simp; omega) (by simp at h2 ⊢; omega)
    · have hKst : st.instCount = K := by omega
      have hi : (instFailEnv K e).instanceFn st.instCount c = Except.error e := by
        simp [instFailEnv, hKst]
      rw [runList, oneRun_instErr _ c st e hi]

theorem runList_dispFail (K : Nat) (e : String) (cs : List (List (Nat × Nat)))
    (st : St) (h0 : st.instCount = st.dispCount) (h1 : st.dispCount ≤ K)
    (h2 : K < st.dispCount + cs.length) :
    (runList (dispFailEnv K e) cs st).2 = some e ∧
    ∃ cK, cs[K - st.dispCount]? = some cK ∧
      (runList (dispFailEnv K e) cs st).1.trace =
        st.trace ++ (cs.take (K - st.dispCount)).flatMap runEvents ++
          [Event.instCall cK, Event.commit, Event.dispCall] := by
  induction cs generalizing st with
  | nil => simp at h2; omega
  | cons c rest ih =>
    have hi : (dispFailEnv K e).instanceFn st.instCount c = Except.ok 0 := rfl
    rcases Nat.lt_or_ge st.dispCount K with hlt | hge
    · have hd : (dispFailEnv K e).dispatchFn st.dispCount 0 = Except.ok () := by
        simp [dispFailEnv, hlt]
      rw [runList, oneRun_ok _ c st 0 hi hd]
      obtain ⟨hres, cK, hcK, htr⟩ :=
        ih { st with
              trace := st.trace ++ runEvents c,
              instCount := st.instCount + 1,
              dispCount := st.dispCount + 1,
              timeCount := st.timeCount + 2,
              results := st.results ++
                [(c, (dispFailEnv K e).timeFn (st.timeCount + 1) -
                      (dispFailEnv K e).timeFn st.timeCount)] }
          (by simp [h0]) (by simp; omega) (by simp at h2 ⊢; omega)
      refine ⟨hres, cK, ?_, ?_⟩
      · have hsub : K - st.dispCount = (K - (st.dispCount + 1)) + 1 := by omega
        rw [hsub]
        simpa using hcK
      · rw [htr]
        have hsub : K - st.dispCount = (K - (st.dispCount + 1)) + 1 := by omega
        rw [hsub]
        simp [List.take_succ_cons, List.append_assoc]
    · have hKst : st.dispCount = K := by omega
      have hd : (dispFailEnv K e).dispatchFn st.dispCount 0 = Except.error e := by
        simp [dispFailEnv, hKst]
      rw [runList, oneRun_dispErr _ c st 0 e hi hd]
      refine ⟨rfl, c, ?_, ?_⟩
      · simp [hKst]
      · simp [hKst]

/-! ### Arithmetic and length facts about the sweep -/

theorem stepSize_pos (low high steps : Nat) : 1 ≤ stepSize low high steps :=
  Nat.le_max_right _ 1

theorem value_le_high (low high steps s : Nat) (hlh : low ≤ high)
    (hs : s < numSteps low high steps) :
    low + stepSize low high steps * s ≤ high := by
  have h1 : stepSize low high steps * numSteps low high steps ≤ high - low := by
    rw [numSteps, Nat.mul_comm]
    exact Nat.div_mul_le_self _ _
  have h2 : stepSize low high steps * (s + 1) ≤
      stepSize low high steps * numSteps low high steps :=
    Nat.mul_le_mul (Nat.le_refl _) hs
  have h3 : stepSize low high steps * s ≤ stepSize low high steps * (s + 1) :=
    Nat.mul_le_mul (Nat.le_refl _) (by omega)
  omega

theorem low_le_midValue (low high : Nat) : low ≤ midValue low high := by
  unfold midValue; omega

theorem midValue_le_high (low high : Nat) (hlh : low ≤ high) :
    midValue low high ≤ high := by
  have := Nat.div_le_self (high - low) 2
  unfold midValue; omega

theorem length_componentAssignments (all : List (Nat × Nat × Nat)) (steps : Nat)
    (t : Nat × Nat × Nat) :
    (componentAssignments all steps t).length = numSteps t.2.1 t.2.2 steps := by
  simp [componentAssignments]

theorem length_flatMap_replicate (cs : List (List (Nat × Nat))) (r : Nat) :
    (cs.flatMap (fun c => List.replicate r c)).length = cs.length * r := by
  induction cs with
  | nil => simp
  | cons c rest ih => simp [ih]; ring

theorem length_stepRuns (all : List (Nat × Nat × Nat)) (steps r : Nat)
    (t : Nat × Nat × Nat) :
    ((componentAssignments all steps t).flatMap
      (fun c => List.replicate r c)).length = numSteps t.2.1 t.2.2 steps * r := by
  rw [length_flatMap_replicate, length_componentAssignments]

theorem sweepAssignments_length (comps : List (Nat × Nat × Nat)) (steps r : Nat) :
    (sweepAssignments comps steps r).length =
      (comps.map (fun t => numSteps t.2.1 t.2.2 steps * r)).sum := by
  rw [sweepAssignments, List.length_flatMap]
  exact congrArg List.sum
    (List.map_congr_left (fun t _ => length_stepRuns comps steps r t))

/-! ### The commit-before-dispatch ordering of traces -/

theorem commitPrecedesDispatch_append_runEvents (xs : List Event)
    (c : List (Nat × Nat)) (h : commitPrecedesDispatch xs) :
    commitPrecedesDispatch (xs ++ runEvents c) := by
  intro i hi
  rw [List.getElem?_append] at hi
  split at hi
  · rw [List.getElem?_append]
    rw [if_pos (by omega)]
    exact h i hi
  · rcases hj : i + 1 - xs.length with _ | _ | _ | _ | j
    all_goals rw [hj] at hi
    · simp [runEvents] at hi
    · simp [runEvents] at hi
    · rw [List.getElem?_append_right (by omega)]
      have : i - xs.length = 1 := by omega
      rw [this]
      simp [runEvents]
    · simp [runEvents] at hi
    · simp [runEvents] at hi

theorem commitPrecedesDispatch_flatMap (cs : List (List (Nat × Nat))) :
    ∀ pre : List Event, commitPrecedesDispatch pre →
      commitPrecedesDispatch (pre ++ cs.flatMap runEvents) := by
  induction cs with
  | nil => intro pre h; simpa using h
  | cons c rest ih =>
    intro pre h
    rw [List.flatMap_cons, ← List.append_assoc]
    exact ih _ (commitPrecedesDispatch_append_runEvents pre c h)

theorem commitPrecedesDispatch_init : commitPrecedesDispatch [Event.commit, Event.wipe] := by
  intro i hi
  rcases i with _ | _ | i <;> simp_all

/-! ### Facts about `instance` -/

theorem lookupValues_isSome (components : List (Nat × Nat)) (ps : List Nat)
    (h : ∀ p ∈ ps, (lookupValue components p).isSome) :
    ∃ vs, lookupValues components ps = some vs := by
  induction ps with
  | nil => exact ⟨[], rfl⟩
  | cons p ps ih =>
    obtain ⟨v, hv⟩ := Option.isSome_iff_exists.mp (h p (by simp))
    obtain ⟨vs, hvs⟩ := ih (fun q hq => h q (by simp [hq]))
    exact ⟨v :: vs, by simp [lookupValues, hv, hvs]⟩

/-- Whenever `run_benchmark` returns `Ok(results)`, the assignments of the
results are exactly the planned sweep assignments, in execution order. -/
theorem run_ok_map_fst (registry : List (String × List (Nat × Nat × Nat)))
    (env : BenchEnv) (x : String) (steps repeatN : Nat)
    (comps : List (Nat × Nat × Nat)) (rs : List (List (Nat × Nat) × Nat))
    (hl : lookupCase registry x = some comps)
    (h : (run_benchmark registry env x steps repeatN).2 = Except.ok rs) :
    rs.map Prod.fst = sweepAssignments comps steps repeatN := by
  rw [run_benchmark_eq_runList registry env x steps repeatN comps hl] at h
  rcases hr : runList env (sweepAssignments comps steps repeatN) initSt with ⟨st, eo⟩
  rw [hr] at h
  cases eo with
  | some e => simp at h
  | none =>
    simp at h
    have hres := runList_ok_results env (sweepAssignments comps steps repeatN)
      initSt (by rw [hr])
    rw [hr] at hres
    simp [initSt] at hres
    rw [← h, hres]

/-! ### The claims -/

/-- Claim C1: for every component with `low ≤ high` and every `steps > 0`,
the sweep uses `step_size = max(1, (high - low) / steps)`,
`num_steps = (high - low) / step_size`, and builds the assignments for the
values `low + step_size * s` for `s` in `0 .. num_steps`, ascending; and the
values stay at most `high`; in particular `step_size ≥ 1`. -/
theorem sweep_step_policy (comps : List (Nat × Nat × Nat))
    (n low high steps : Nat) (h1 : 0 < steps) (h2 : low ≤ high) :
    1 ≤ stepSize low high steps ∧
    stepSize low high steps = Nat.max 1 ((high - low) / steps) ∧
    numSteps low high steps = (high - low) / stepSize low high steps ∧
    componentAssignments comps steps (n, low, high) =
      (List.range (numSteps low high steps)).map
        (fun s => buildAssignment comps n (low + stepSize low high steps * s)) ∧
    (∀ s1 s2 : Nat, s1 < s2 → s2 < numSteps low high steps →
      low + stepSize low high steps * s1 < low + stepSize low high steps * s2) ∧
    (∀ s : Nat, s < numSteps low high steps →
      low + stepSize low high steps * s ≤ high) := by
  refine ⟨stepSize_pos low high steps, Nat.max_comm _ _, rfl, rfl, ?_, ?_⟩
  · intro s1 s2 hlt _
    have := (Nat.mul_lt_mul_left
      (Nat.lt_of_lt_of_le Nat.zero_lt_one (stepSize_pos low high steps))).mpr hlt
    omega
  · exact fun s hs => value_le_high low high steps s h2 hs

theorem sweep_step_policy_witness :
    0 < 3 ∧ (0 : Nat) ≤ 10 ∧
    (1 ≤ stepSize 0 10 3 ∧
     stepSize 0 10 3 = Nat.max 1 ((10 - 0) / 3) ∧
     numSteps 0 10 3 = (10 - 0) / stepSize 0 10 3 ∧
     componentAssignments [(0, 0, 10)] 3 (0, 0, 10) =
       (List.range (numSteps 0 10 3)).map
         (fun s => buildAssignment [(0, 0, 10)] 0 (0 + stepSize 0 10 3 * s)) ∧
     (∀ s1 s2 : Nat, s1 < s2 → s2 < numSteps 0 10 3 →
       0 + stepSize 0 10 3 * s1 < 0 + stepSize 0 10 3 * s2) ∧
     (∀ s : Nat, s < numSteps 0 10 3 → 0 + stepSize 0 10 3 * s ≤ 10)) :=
  ⟨by decide, by decide, sweep_step_policy [(0, 0, 10)] 0 0 10 3 (by decide) (by decide)⟩

/-- Claim C4 as stated is false: with `low = high = 5` and `steps = 2` the
code computes `step_size = max(0 / 2, 1) = 1` and `num_of_steps = 0 / 1 = 0`,
not `1`, and with `repeat = 1` the zero-width component contributes zero
timed runs, not `repeat = 1`. -/
theorem zero_width_counterexample :
    ¬ (numSteps 5 5 2 = 1) ∧
    (run_benchmark [("f", [(0, 5, 5)])] okEnv "f" 2 1).2 = Except.ok [] :=
  ⟨by decide, rfl⟩

/-- Claim C4 (amended): for every component whose range is zero-width
(`low = high`), the code takes `step_size = 1` and `num_steps = 0`, so the
sweep over that component executes zero steps and contributes no timed run
at all. -/
theorem zero_width_component_skipped (comps : List (Nat × Nat × Nat))
    (steps n low : Nat) :
    stepSize low low steps = 1 ∧
    numSteps low low steps = 0 ∧
    componentAssignments comps steps (n, low, low) = [] ∧
    ∀ (env : BenchEnv) (r : Nat) (st : St),
      runAssignments env r (componentAssignments comps steps (n, low, low)) st
        = (st, none) := by
  have hss : stepSize low low steps = 1 := by
    simp [stepSize, Nat.sub_self]
  have hns : numSteps low low steps = 0 := by
    simp [numSteps, Nat.sub_self]
  have hca : componentAssignments comps steps (n, low, low) = [] := by
    simp [componentAssignments, hns]
  exact ⟨hss, hns, hca, fun env r st => by rw [hca]; rfl⟩

/-- Claim C6: for every name that is not registered, `run_benchmark` returns
the not-found error with an empty event trace: no `commit_db` or `wipe_db`
happens before the lookup fails. -/
theorem unknown_benchmark_no_mutation
    (registry : List (String × List (Nat × Nat × Nat))) (env : BenchEnv)
    (x : String) (steps repeatN : Nat) (h : lookupCase registry x = none) :
    run_benchmark registry env x steps repeatN =
      ([], Except.error "Could not find extrinsic.") := by
  simp [run_benchmark, h]

theorem unknown_benchmark_no_mutation_witness :
    lookupCase [("foo", [(0, 0, 10)])] "bar" = none ∧
    run_benchmark [("foo", [(0, 0, 10)])] okEnv "bar" 2 1 =
      ([], Except.error "Could not find extrinsic.") :=
  ⟨rfl, unknown_benchmark_no_mutation [("foo", [(0, 0, 10)])] okEnv "bar" 2 1 rfl⟩

/-- Claim C9: two runs of the same sweep with identical inputs (same
registry, name, steps, repeat) that both return result lists produce
identical assignment sequences, whatever the two environments' timings or
invocation tokens are. -/
theorem sweep_deterministic (registry : List (String × List (Nat × Nat × Nat)))
    (x : String) (steps repeatN : Nat) (env1 env2 : BenchEnv)
    (rs1 rs2 : List (List (Nat × Nat) × Nat))
    (h1 : (run_benchmark registry env1 x steps repeatN).2 = Except.ok rs1)
    (h2 : (run_benchmark registry env2 x steps repeatN).2 = Except.ok rs2) :
    rs1.map Prod.fst = rs2.map Prod.fst := by
  rcases hl : lookupCase registry x with _ | comps
  · rw [run_benchmark, hl] at h1
    simp at h1
  · rw [run_ok_map_fst registry env1 x steps repeatN comps rs1 hl h1,
        run_ok_map_fst registry env2 x steps repeatN comps rs2 hl h2]

theorem sweep_deterministic_witness :
    ([([(0, 0)], 0), ([(0, 5)], 0)] : List (List (Nat × Nat) × Nat)).map Prod.fst =
      ([([(0, 0)], 1), ([(0, 5)], 1)] : List (List (Nat × Nat) × Nat)).map Prod.fst :=
  sweep_deterministic [("f", [(0, 0, 10)])] "f" 2 1 okEnv tickEnv
    [([(0, 0)], 0), ([(0, 5)], 0)] [([(0, 0)], 1), ([(0, 5)], 1)] rfl rfl

/-- Claim C5: on a sweep that completes without error, the results follow
execution order — their assignments are exactly `sweepAssignments`
(components in declaration order, steps ascending, repeats in sequence) —
and the total length is the sum over components of `num_steps * repeat`. -/
theorem sweep_result_count (registry : List (String × List (Nat × Nat × Nat)))
    (env : BenchEnv) (x : String) (steps repeatN : Nat)
    (comps : List (Nat × Nat × Nat))
    (hl : lookupCase registry x = some comps) (henv : AllOk env) :
    ∃ rs, (run_benchmark registry env x steps repeatN).2 = Except.ok rs ∧
      rs.map Prod.fst = sweepAssignments comps steps repeatN ∧
      rs.length = (comps.map (fun t => numSteps t.2.1 t.2.2 steps * repeatN)).sum := by
  rw [run_benchmark_eq_runList registry env x steps repeatN comps hl]
  obtain ⟨hok, htr, hres⟩ :=
    runList_allOk env henv (sweepAssignments comps steps repeatN) initSt
  rcases hr : runList env (sweepAssignments comps steps repeatN) initSt with ⟨st, eo⟩
  rw [hr] at hok htr hres
  cases eo with
  | some e => simp at hok
  | none =>
    simp [initSt] at hres
    refine ⟨st.results, by simp, hres, ?_⟩
    have := congrArg List.length hres
    simp at this
    rw [this, sweepAssignments_length]

theorem sweep_result_count_witness :
    lookupCase [("f", [(0, 0, 10), (1, 2, 6)])] "f" = some [(0, 0, 10), (1, 2, 6)] ∧
    ∃ rs, (run_benchmark [("f", [(0, 0, 10), (1, 2, 6)])] okEnv "f" 2 3).2 = Except.ok rs ∧
      rs.map Prod.fst = sweepAssignments [(0, 0, 10), (1, 2, 6)] 2 3 ∧
      rs.length = ([(0, 0, 10), (1, 2, 6)].map
        (fun t => numSteps t.2.1 t.2.2 2 * 3)).sum :=
  ⟨rfl, sweep_result_count [("f", [(0, 0, 10), (1, 2, 6)])] okEnv "f" 2 3
    [(0, 0, 10), (1, 2, 6)] rfl ⟨fun _ _ => ⟨0, rfl⟩, fun _ _ => rfl⟩⟩

/-- Claim C7: on a successful sweep the externally visible operations are,
in order: one warm-up `commit_db` then one `wipe_db` before any measurement,
then for each timed run `instance`, a `commit_db` immediately before the
dispatch, the dispatch, and a `wipe_db` immediately after the run's result
is recorded; in particular every dispatch in the trace is immediately
preceded by a `commit_db`. -/
theorem sweep_store_protocol (registry : List (String × List (Nat × Nat × Nat)))
    (env : BenchEnv) (x : String) (steps repeatN : Nat)
    (comps : List (Nat × Nat × Nat))
    (hl : lookupCase registry x = some comps) (henv : AllOk env) :
    (run_benchmark registry env x steps repeatN).1 =
      [Event.commit, Event.wipe] ++
        (sweepAssignments comps steps repeatN).flatMap runEvents ∧
    commitPrecedesDispatch (run_benchmark registry env x steps repeatN).1 ∧
    ∃ rs, (run_benchmark registry env x steps repeatN).2 = Except.ok rs := by
  rw [run_benchmark_eq_runList registry env x steps repeatN comps hl]
  obtain ⟨hok, htr, _⟩ :=
    runList_allOk env henv (sweepAssignments comps steps repeatN) initSt
  rcases hr : runList env (sweepAssignments comps steps repeatN) initSt with ⟨st, eo⟩
  rw [hr] at hok htr
  cases eo with
  | some e => simp at hok
  | none =>
    simp only [initSt] at htr
    refine ⟨htr, ?_, st.results, by simp⟩
    simp only [htr]
    exact commitPrecedesDispatch_flatMap _ _ commitPrecedesDispatch_init

theorem sweep_store_protocol_witness :
    lookupCase [("f", [(0, 0, 10)])] "f" = some [(0, 0, 10)] ∧
    ((run_benchmark [("f", [(0, 0, 10)])] okEnv "f" 2 1).1 =
      [Event.commit, Event.wipe] ++
        (sweepAssignments [(0, 0, 10)] 2 1).flatMap runEvents ∧
     commitPrecedesDispatch (run_benchmark [("f", [(0, 0, 10)])] okEnv "f" 2 1).1 ∧
     ∃ rs, (run_benchmark [("f", [(0, 0, 10)])] okEnv "f" 2 1).2 = Except.ok rs) :=
  ⟨rfl, sweep_store_protocol [("f", [(0, 0, 10)])] okEnv "f" 2 1 [(0, 0, 10)] rfl
    ⟨fun _ _ => ⟨0, rfl⟩, fun _ _ => rfl⟩⟩

/-- Claim C3: if the `K`-th `instance` call of the sweep fails (everything
earlier succeeded), or the `K`-th dispatch fails, `run_benchmark` returns
that error and never a result list — no prefix of the accumulated results is
delivered. -/
theorem failure_discards_results (registry : List (String × List (Nat × Nat × Nat)))
    (x : String) (steps repeatN K : Nat) (e : String)
    (comps : List (Nat × Nat × Nat))
    (hl : lookupCase registry x = some comps)
    (hK : K < (sweepAssignments comps steps repeatN).length) :
    ((run_benchmark registry (instFailEnv K e) x steps repeatN).2 = Except.error e ∧
      ∀ rs, (run_benchmark registry (instFailEnv K e) x steps repeatN).2 ≠ Except.ok rs) ∧
    ((run_benchmark registry (dispFailEnv K e) x steps repeatN).2 = Except.error e ∧
      ∀ rs, (run_benchmark registry (dispFailEnv K e) x steps repeatN).2 ≠ Except.ok rs) := by
  constructor
  · rw [run_benchmark_eq_runList registry (instFailEnv K e) x steps repeatN comps hl]
    have herr := runList_instFail K e (sweepAssignments comps steps repeatN) initSt
      (by simp [initSt]) (by simpa [initSt] using hK)
    rcases hr : runList (instFailEnv K e) (sweepAssignments comps steps repeatN) initSt
      with ⟨st, eo⟩
    rw [hr] at herr
    cases eo with
    | none => simp at herr
    | some e' =>
      simp at herr
      subst herr
      exact ⟨by simp, by simp⟩
  · rw [run_benchmark_eq_runList registry (dispFailEnv K e) x steps repeatN comps hl]
    have herr := (runList_dispFail K e (sweepAssignments comps steps repeatN) initSt
      rfl (by simp [initSt]) (by simpa [initSt] using hK)).1
    rcases hr : runList (dispFailEnv K e) (sweepAssignments comps steps repeatN) initSt
      with ⟨st, eo⟩
    rw [hr] at herr
    cases eo with
    | none => simp at herr
    | some e' =>
      simp at herr
      subst herr
      exact ⟨by simp, by simp⟩

theorem failure_discards_results_witness :
    lookupCase [("f", [(0, 0, 10)])] "f" = some [(0, 0, 10)] ∧
    1 < (sweepAssignments [(0, 0, 10)] 2 1).length ∧
    (((run_benchmark [("f", [(0, 0, 10)])] (instFailEnv 1 "boom") "f" 2 1).2 =
        Except.error "boom" ∧
      ∀ rs, (run_benchmark [("f", [(0, 0, 10)])] (instFailEnv 1 "boom") "f" 2 1).2 ≠
        Except.ok rs) ∧
     ((run_benchmark [("f", [(0, 0, 10)])] (dispFailEnv 1 "boom") "f" 2 1).2 =
        Except.error "boom" ∧
      ∀ rs, (run_benchmark [("f", [(0, 0, 10)])] (dispFailEnv 1 "boom") "f" 2 1).2 ≠
        Except.ok rs)) :=
  ⟨rfl, by decide,
   failure_discards_results [("f", [(0, 0, 10)])] "f" 2 1 1 "boom" [(0, 0, 10)]
     rfl (by decide)⟩

/-- Claim C10: when the `K`-th dispatch fails (everything earlier
succeeded), `run_benchmark` returns that error and the event trace ends at
that dispatch: the commit immediately preceding it is the last backing-store
operation, and no wipe follows on the error path. -/
theorem dispatch_failure_leaves_commit (registry : List (String × List (Nat × Nat × Nat)))
    (x : String) (steps repeatN K : Nat) (e : String)
    (comps : List (Nat × Nat × Nat))
    (hl : lookupCase registry x = some comps)
    (hK : K < (sweepAssignments comps steps repeatN).length) :
    (run_benchmark registry (dispFailEnv K e) x steps repeatN).2 = Except.error e ∧
    ∃ cK, (sweepAssignments comps steps repeatN)[K]? = some cK ∧
      (run_benchmark registry (dispFailEnv K e) x steps repeatN).1 =
        [Event.commit, Event.wipe] ++
          ((sweepAssignments comps steps repeatN).take K).flatMap runEvents ++
          [Event.instCall cK, Event.commit, Event.dispCall] := by
  rw [run_benchmark_eq_runList registry (dispFailEnv K e) x steps repeatN comps hl]
  obtain ⟨herr, cK, hcK, htr⟩ :=
    runList_dispFail K e (sweepAssignments comps steps repeatN) initSt
      rfl (by simp [initSt]) (by simpa [initSt] using hK)
  rcases hr : runList (dispFailEnv K e) (sweepAssignments comps steps repeatN) initSt
    with ⟨st, eo⟩
  rw [hr] at herr htr
  cases eo with
  | none => simp at herr
  | some e' =>
    simp at herr
    subst herr
    simp only [initSt] at htr hcK
    refine ⟨by simp, cK, by simpa using hcK, ?_⟩
    simpa [List.append_assoc] using htr

theorem dispatch_failure_leaves_commit_witness :
    lookupCase [("f", [(0, 0, 10)])] "f" = some [(0, 0, 10)] ∧
    1 < (sweepAssignments [(0, 0, 10)] 2 1).length ∧
    ((run_benchmark [("f", [(0, 0, 10)])] (dispFailEnv 1 "halt") "f" 2 1).2 =
       Except.error "halt" ∧
     ∃ cK, (sweepAssignments [(0, 0, 10)] 2 1)[1]? = some cK ∧
       (run_benchmark [("f", [(0, 0, 10)])] (dispFailEnv 1 "halt") "f" 2 1).1 =
         [Event.commit, Event.wipe] ++
           ((sweepAssignments [(0, 0, 10)] 2 1).take 1).flatMap runEvents ++
           [Event.instCall cK, Event.commit, Event.dispCall]) :=
  ⟨rfl, by decide,
   dispatch_failure_leaves_commit [("f", [(0, 0, 10)])] "f" 2 1 1 "halt"
     [(0, 0, 10)] rfl (by decide)⟩

/-- Claim C2: every assignment built while sweeping component `target` has
exactly one entry per declared component, in declaration order; the swept
component takes the step value `low + step_size * s`, every other component
its midpoint `(high - low) / 2 + low`; and every value lies within
`[low, high]` of its component. -/
theorem assignment_shape (comps : List (Nat × Nat × Nat)) (steps : Nat)
    (target : Nat × Nat × Nat) (a : List (Nat × Nat))
    (hnd : (comps.map Prod.fst).Nodup)
    (hr : ∀ c ∈ comps, c.2.1 ≤ c.2.2)
    (ht : target ∈ comps)
    (ha : a ∈ componentAssignments comps steps target) :
    a.map Prod.fst = comps.map Prod.fst ∧
    ∃ s, s < numSteps target.2.1 target.2.2 steps ∧
      ∀ i n l h : Nat, comps[i]? = some (n, l, h) →
        ∃ v, a[i]? = some (n, v) ∧ l ≤ v ∧ v ≤ h ∧
          (n = target.1 →
            v = target.2.1 + stepSize target.2.1 target.2.2 steps * s) ∧
          (n ≠ target.1 → v = midValue l h) := by
  rw [componentAssignments] at ha
  obtain ⟨s, hsr, rfl⟩ := List.mem_map.mp ha
  have hs : s < numSteps target.2.1 target.2.2 steps := List.mem_range.mp hsr
  constructor
  · simp [buildAssignment]
  · refine ⟨s, hs, ?_⟩
    intro i n l h hcomp
    have hai : (buildAssignment comps target.1
        (target.2.1 + stepSize target.2.1 target.2.2 steps * s))[i]? =
        some (n, if n = target.1
          then target.2.1 + stepSize target.2.1 target.2.2 steps * s
          else midValue l h) := by
      rw [buildAssignment, List.getElem?_map, hcomp]
      rfl
    by_cases hn : n = target.1
    · obtain ⟨j, hjlt, hj⟩ := List.getElem_of_mem ht
      have hjq : comps[j]? = some target := by
        rw [List.getElem?_eq_some]
        exact ⟨hjlt, hj⟩
      obtain ⟨hilt, _⟩ := List.getElem?_eq_some.mp hcomp
      have hmi : (comps.map Prod.fst)[i]? = some n := by
        rw [List.getElem?_map, hcomp]
        rfl
      have hmj : (comps.map Prod.fst)[j]? = some target.1 := by
        rw [List.getElem?_map, hjq]
        rfl
      have hij : i = j :=
        List.getElem?_inj (by simpa using hilt) hnd (by rw [hmi, hmj, hn])
      have htgt : (n, l, h) = target := by
        have h2 := hjq
        rw [← hij, hcomp] at h2
        exact Option.some.inj h2
      have hl2 : l = target.2.1 := by rw [← htgt]
      have hh2 : h = target.2.2 := by rw [← htgt]
      refine ⟨target.2.1 + stepSize target.2.1 target.2.2 steps * s, ?_, ?_, ?_,
        fun _ => rfl, fun hc => absurd hn hc⟩
      · rw [hai]
        simp [hn]
      · rw [hl2]
        exact Nat.le_add_right _ _
      · rw [hh2]
        exact value_le_high _ _ _ _ (hr target ht) hs
    · refine ⟨midValue l h, ?_, low_le_midValue l h,
        midValue_le_high l h (hr (n, l, h) (List.getElem?_mem hcomp)),
        fun hc => absurd hc hn, fun _ => rfl⟩
      rw [hai]
      simp [hn]

theorem assignment_shape_witness :
    ([(0, 0, 10), (1, 2, 6)].map (Prod.fst (β := Nat × Nat))).Nodup ∧
    (0, 0, 10) ∈ ([(0, 0, 10), (1, 2, 6)] : List (Nat × Nat × Nat)) ∧
    buildAssignment [(0, 0, 10), (1, 2, 6)] 0 5 ∈
      componentAssignments [(0, 0, 10), (1, 2, 6)] 2 (0, 0, 10) ∧
    ((buildAssignment [(0, 0, 10), (1, 2, 6)] 0 5).map Prod.fst =
      [(0, 0, 10), (1, 2, 6)].map Prod.fst ∧
     ∃ s, s < numSteps 0 10 2 ∧
       ∀ i n l h : Nat, ([(0, 0, 10), (1, 2, 6)] : List (Nat × Nat × Nat))[i]? = some (n, l, h) →
         ∃ v, (buildAssignment [(0, 0, 10), (1, 2, 6)] 0 5)[i]? = some (n, v) ∧
           l ≤ v ∧ v ≤ h ∧
           (n = 0 → v = 0 + stepSize 0 10 2 * s) ∧
           (n ≠ 0 → v = midValue l h)) :=
  ⟨by decide, by decide, by decide,
   assignment_shape [(0, 0, 10), (1, 2, 6)] 2 (0, 0, 10)
     (buildAssignment [(0, 0, 10), (1, 2, 6)] 0 5)
     (by decide) (by decide) (by decide) (by decide)⟩

/-- Claim C8: if the given assignment has an entry for every declared
parameter of the case, then every per-parameter lookup inside `instance`
succeeds (the `unwrap` panic is unreachable), and `instance` runs the pre
blocks, the instancers in declaration order, and the build step, returning
`Ok` exactly when all of them succeed. -/
theorem instance_contract (bc : InstanceCase) (components : List (Nat × Nat))
    (h : ∀ p ∈ bc.params, (lookupValue components p).isSome) :
    (instanceRun bc components).isSome ∧
    ∃ vs, lookupValues components bc.params = some vs ∧
      instanceRun bc components = some (instanceStages bc vs) ∧
      ((∃ inv, instanceStages bc vs = Except.ok inv) ↔
        (seqRun (bc.preBlocks.map (fun f => f vs)) = Except.ok () ∧
         seqRun (bc.instancers.map (fun f => f vs)) = Except.ok () ∧
         ∃ inv, bc.build vs = Except.ok inv)) := by
  obtain ⟨vs, hvs⟩ := lookupValues_isSome components bc.params h
  refine ⟨by simp [instanceRun, hvs], vs, hvs, by simp [instanceRun, hvs], ?_⟩
  unfold instanceStages
  rcases hpre : seqRun (bc.preBlocks.map (fun f => f vs)) with e | u
  · simp [hpre]
  · rcases hinst : seqRun (bc.instancers.map (fun f => f vs)) with e | u2
    · simp [hpre, hinst]
    · simp [hpre, hinst]

theorem instance_contract_witness :
    (∀ p ∈ sampleCase.params, (lookupValue [(0, 3), (1, 4)] p).isSome) ∧
    ((instanceRun sampleCase [(0, 3), (1, 4)]).isSome ∧
     ∃ vs, lookupValues [(0, 3), (1, 4)] sampleCase.params = some vs ∧
       instanceRun sampleCase [(0, 3), (1, 4)] = some (instanceStages sampleCase vs) ∧
       ((∃ inv, instanceStages sampleCase vs = Except.ok inv) ↔
         (seqRun (sampleCase.preBlocks.map (fun f => f vs)) = Except.ok () ∧
          seqRun (sampleCase.instancers.map (fun f => f vs)) = Except.ok () ∧
          ∃ inv, sampleCase.build vs = Except.ok inv))) :=
  ⟨by decide, instance_contract sampleCase [(0, 3), (1, 4)] (by decide)⟩

end Weighing